import Mathlib

/-!
# Number-theory toolkit of `zi/lab3/lab3.cpp`

A shallow embedding of the numeric core of `lab3.cpp` (modular exponentiation,
Fermat test, extended Euclid, baby-step/giant-step, primitive-root test and the
Diffie-Hellman key computation) together with theorems about it.

Conventions of the embedding:

* a `long long` is read as a mathematical integer (`Int`); the theorems of this
  part speak about the algorithms on integers;
* C++ `/` and `%` truncate toward zero, so they are `Int.tdiv` and `Int.tmod`;
* `exp >> 1` is the arithmetic shift `Int.shiftRight`;
* a `while` loop is a function recursing on a step budget, and the budget handed
  over by the caller is shown to cover every iteration the loop makes;
* a draw `dis(gen)` of the pseudo-random generator is read off a stream
  `Nat → Int` supplied by the caller; every distribution object and every call of
  `fermat_test` reads a stream of its own, and since the theorems hold for all
  streams they hold for every way the single generator interleaves the draws;
* 64-bit wrap-around is made explicit in `mod_pow64`, which is compared with
  `mod_pow` at the scale of the program.
-/

namespace Lab3

/-! ## Definitions -/

/-- The `while (exp > 0)` loop of `mod_pow` (lines 28-33): `fuel` bounds the
number of iterations, the other arguments are the loop variables. -/
def mod_pow_loop : Nat → Int → Int → Int → Int → Int
  | 0, result, _, _, _ => result
  | fuel + 1, result, base, exp, mod =>
    if exp > 0 then
      mod_pow_loop fuel
        (if Int.tmod exp 2 = 1 then Int.tmod (result * base) mod else result)
        (Int.tmod (base * base) mod) (exp >>> (1 : Nat)) mod
    else result

/-- `mod_pow(base, exp, mod)` (lines 24-35). The loop halves `exp` at every
iteration, so `exp` iterations are always enough. -/
def mod_pow (base exp mod : Int) : Int :=
  if mod = 1 then 0
  else mod_pow_loop exp.toNat 1 (Int.tmod base mod) exp mod

/-- The `while (b != 0)` loop of `extended_gcd` (lines 55-67). The result is
`none` when the budget `fuel` is used up before `b` reaches zero. -/
def extended_gcd_loop : Nat → Int → Int → Int → Int → Int → Int → Option (Int × Int × Int)
  | 0, a, b, x0, y0, _, _ => if b ≠ 0 then none else some (a, x0, y0)
  | fuel + 1, a, b, x0, y0, x1, y1 =>
    if b ≠ 0 then
      extended_gcd_loop fuel b (Int.tmod a b) x1 y1
        (x0 - Int.tdiv a b * x1) (y0 - Int.tdiv a b * y1)
    else some (a, x0, y0)

/-- `extended_gcd(a, b)` (lines 51-70): the triple `(a, x0, y0)` at loop exit.
The remainder shrinks in absolute value, so `|b|` iterations are enough. -/
def extended_gcd (a b : Int) : Option (Int × Int × Int) :=
  extended_gcd_loop b.natAbs a b 1 0 0 1

/-- The `for (int i = 0; i < k; ++i)` loop of `fermat_test` (lines 43-47): the
first argument counts the rounds still to run, `i` is the loop index and
`draw i` is the value `dis(gen)` returns in round `i`. -/
def fermat_loop (n : Int) (draw : Nat → Int) : Nat → Nat → Bool
  | 0, _ => true
  | rounds + 1, i =>
    if mod_pow (draw i) (n - 1) n ≠ 1 then false
    else fermat_loop n draw rounds (i + 1)

/-- `fermat_test(n, k)` (lines 37-49); `draw` is the stream of witnesses returned
by the distribution `dis(2, n - 2)`. -/
def fermat_test (n k : Int) (draw : Nat → Int) : Bool :=
  if n ≤ 1 then false
  else if n = 2 ∨ n = 3 then true
  else if Int.tmod n 2 = 0 then false
  else fermat_loop n draw k.toNat 0

/-- Integer part of the square root, by upward search: the value of
`static_cast<long long>(std::sqrt(p))` on line 76. -/
def isqrt_loop : Nat → Nat → Nat → Nat
  | 0, _, s => s
  | fuel + 1, n, s => if (s + 1) * (s + 1) ≤ n then isqrt_loop fuel n (s + 1) else s

/-- Integer part of the square root of `n`. -/
def isqrt (n : Nat) : Nat := isqrt_loop n n 0

/-- The `while (m * k <= p)` loop of `baby_step_giant_step` (lines 78-81), which
returns the final `(m, k)`. -/
def step_size_loop : Nat → Int → Int → Int → Int × Int
  | 0, _, m, k => (m, k)
  | fuel + 1, p, m, k =>
    if m * k ≤ p then step_size_loop fuel p (m + 1) (Int.tdiv (p + (m + 1) - 1) (m + 1))
    else (m, k)

/-- Lines 76-81 of `baby_step_giant_step`: the step size `m` and the number of
giant steps `k`. Every iteration increments `m`, and the loop is left at the
latest when `m` exceeds `p`, so `p` iterations are enough. -/
def step_size (p : Int) : Int × Int :=
  step_size_loop p.toNat p ((isqrt p.toNat : Int) + 1)
    (Int.tdiv (p + ((isqrt p.toNat : Int) + 1) - 1) ((isqrt p.toNat : Int) + 1))

/-- The baby-step loop `for (j = 1; j < m; ++j)` (lines 87-92). The `std::map` is
an association list; a residue is entered only when it is not yet a key. The
first argument counts the iterations still to run. -/
def baby_steps_loop (a p : Int) : Nat → Int → Int → List (Int × Int) → List (Int × Int)
  | 0, _, _, baby_steps => baby_steps
  | n + 1, j, current, baby_steps =>
    baby_steps_loop a p n (j + 1) (Int.tmod (current * a) p)
      (if (baby_steps.lookup (Int.tmod (current * a) p)).isNone
        then (Int.tmod (current * a) p, j) :: baby_steps else baby_steps)

/-- The giant-step loop `for (i = 1; i <= k; ++i)` (lines 97-106), with the final
`return -1` of line 107. The first argument counts the iterations still to run. -/
def giant_steps_loop (baby_steps : List (Int × Int)) (a y p m a_power_m : Int) :
    Nat → Int → Int → Int
  | 0, _, _ => -1
  | n + 1, i, giant_step =>
    match baby_steps.lookup (Int.tmod (giant_step * a_power_m) p) with
    | some j =>
      if i * m - j ≥ 0 ∧ mod_pow a (i * m - j) p = Int.tmod y p then i * m - j
      else giant_steps_loop baby_steps a y p m a_power_m n (i + 1)
        (Int.tmod (giant_step * a_power_m) p)
    | none =>
      giant_steps_loop baby_steps a y p m a_power_m n (i + 1)
        (Int.tmod (giant_step * a_power_m) p)

/-- `baby_step_giant_step(a, y, p)` (lines 72-108); the result -1 reports that no
exponent was found. -/
def baby_step_giant_step (a y p : Int) : Int :=
  if y = 1 then 0
  else if a = 0 then (if y = 0 then 1 else -1)
  else
    giant_steps_loop
      (baby_steps_loop a p ((step_size p).1 - 1).toNat 1 (Int.tmod y p) [(Int.tmod y p, 0)])
      a y p (step_size p).1 (mod_pow a (step_size p).1 p) (step_size p).2.toNat 1 1

/-- The `while (true)` loop of `find_safe_prime` (lines 137-145). Iteration `t`
draws the candidate `cand t` from `dis_q`; the Fermat test of `q` reads its
witnesses from `wq t` and the test of `p` from `wp t`. The loop has no exit
other than acceptance, so the result is `none` when `fuel` iterations passed
without one. -/
def find_safe_prime_loop (max_v k : Int) (cand : Nat → Int) (wq wp : Nat → Nat → Int) :
    Nat → Nat → Option (Int × Int)
  | 0, _ => none
  | fuel + 1, t =>
    if fermat_test (cand t) k (wq t) = true then
      if 2 * cand t + 1 ≤ max_v ∧ fermat_test (2 * cand t + 1) k (wp t) = true then
        some (2 * cand t + 1, cand t)
      else find_safe_prime_loop max_v k cand wq wp fuel (t + 1)
    else find_safe_prime_loop max_v k cand wq wp fuel (t + 1)

/-- Lower end `min_q` of the range of `dis_q` (lines 133-134). -/
def safe_prime_min_q (min_v max_v : Int) : Int :=
  if max 2 (Int.tdiv (min_v - 1) 2) > Int.tdiv (max_v - 1) 2 then Int.tdiv (max_v - 1) 2
  else max 2 (Int.tdiv (min_v - 1) 2)

/-- Upper end `max_q` of the range of `dis_q` (line 132). -/
def safe_prime_max_q (max_v : Int) : Int := Int.tdiv (max_v - 1) 2

/-- `generate_safe_prime(min_val, max_val, k)` (lines 130-148), run for at most
`fuel` candidates. `dis_q lo hi t` is the value drawn in iteration `t` from the
distribution constructed on line 136 with the bounds `lo` and `hi`. -/
def generate_safe_prime (min_val max_val k : Int) (fuel : Nat) (dis_q : Int → Int → Nat → Int)
    (wq wp : Nat → Nat → Int) : Option (Int × Int) :=
  find_safe_prime_loop max_val k
    (dis_q (safe_prime_min_q min_val max_val) (safe_prime_max_q max_val)) wq wp fuel 0

/-- Reduction of an integer to the range of a 64-bit signed `long long`
(two's complement wrap-around). -/
def wrap64 (x : Int) : Int := (x + 2 ^ 63) % 2 ^ 64 - 2 ^ 63

/-- The loop of `mod_pow` with every product wrapped to 64 bits. -/
def mod_pow64_loop : Nat → Int → Int → Int → Int → Int
  | 0, result, _, _, _ => result
  | fuel + 1, result, base, exp, mod =>
    if exp > 0 then
      mod_pow64_loop fuel
        (if Int.tmod exp 2 = 1 then Int.tmod (wrap64 (result * base)) mod else result)
        (Int.tmod (wrap64 (base * base)) mod) (exp >>> (1 : Nat)) mod
    else result

/-- `mod_pow` as the machine computes it: every product wrapped to 64 bits. -/
def mod_pow64 (base exp mod : Int) : Int :=
  if mod = 1 then 0
  else mod_pow64_loop exp.toNat 1 (Int.tmod base mod) exp mod

/-- The products `result * base` and `base * base` that the loop of `mod_pow`
evaluates, in the order of evaluation, as unbounded integers. -/
def mod_pow_products_loop : Nat → Int → Int → Int → Int → List Int
  | 0, _, _, _, _ => []
  | fuel + 1, result, base, exp, mod =>
    if exp > 0 then
      (if Int.tmod exp 2 = 1 then [result * base] else []) ++
        (base * base ::
          mod_pow_products_loop fuel
            (if Int.tmod exp 2 = 1 then Int.tmod (result * base) mod else result)
            (Int.tmod (base * base) mod) (exp >>> (1 : Nat)) mod)
    else []

/-- The products evaluated by `mod_pow(base, exp, mod)`. -/
def mod_pow_products (base exp mod : Int) : List Int :=
  if mod = 1 then []
  else mod_pow_products_loop exp.toNat 1 (Int.tmod base mod) exp mod

/-! ## Modular exponentiation -/

theorem natAbs_tmod (a b : Int) : (Int.tmod a b).natAbs = a.natAbs % b.natAbs := by
  cases a <;> cases b <;>
    simp only [Int.tmod, Int.natAbs_neg, Int.natAbs_ofNat, Int.natAbs_negSucc,
      Int.ofNat_eq_coe, Nat.succ_eq_add_one]

theorem gcd_tmod (a b : Int) : Int.gcd b (Int.tmod a b) = Int.gcd a b := by
  simp only [Int.gcd, natAbs_tmod]
  rw [Nat.gcd_comm a.natAbs, Nat.gcd_rec b.natAbs a.natAbs, Nat.gcd_comm]

/-- The loop of `extended_gcd` leaves within `|b|` iterations, and its result is a
Bezout combination of the original arguments `A`, `B` whose absolute value is the
greatest common divisor of the loop variables `a`, `b`. -/
theorem extended_gcd_loop_spec (A B : Int) (fuel : Nat) :
    ∀ a b x0 y0 x1 y1 : Int, b.natAbs ≤ fuel → A * x0 + B * y0 = a → A * x1 + B * y1 = b →
      ∃ g x y, extended_gcd_loop fuel a b x0 y0 x1 y1 = some (g, x, y) ∧
        A * x + B * y = g ∧ g.natAbs = Int.gcd a b ∧ (0 ≤ a → 0 ≤ b → 0 ≤ g) := by
  induction fuel with
  | zero =>
    intro a b x0 y0 x1 y1 hf h0 _
    have hb : b = 0 := Int.natAbs_eq_zero.mp (Nat.le_zero.mp hf)
    subst hb
    exact ⟨a, x0, y0, by simp [extended_gcd_loop], h0, by simp, fun ha _ => ha⟩
  | succ fuel ih =>
    intro a b x0 y0 x1 y1 hf h0 h1
    by_cases hb : b = 0
    · subst hb
      exact ⟨a, x0, y0, by simp [extended_gcd_loop], h0, by simp, fun ha _ => ha⟩
    · have hlt : (Int.tmod a b).natAbs < b.natAbs := by
        rw [natAbs_tmod]
        exact Nat.mod_lt _ (Int.natAbs_pos.mpr hb)
      have hr : A * (x0 - Int.tdiv a b * x1) + B * (y0 - Int.tdiv a b * y1) = Int.tmod a b := by
        have hdef := Int.tmod_def a b
        rw [hdef, ← h0, ← h1]; ring
      obtain ⟨g, x, y, hres, hbez, hg, hsign⟩ :=
        ih b (Int.tmod a b) x1 y1 _ _ (by omega) h1 hr
      refine ⟨g, x, y, ?_, hbez, ?_, ?_⟩
      · unfold extended_gcd_loop
        rw [if_pos hb]; exact hres
      · rw [hg, gcd_tmod]
      · intro ha hb0
        exact hsign hb0 (Int.tmod_nonneg b ha)

/-- C3, as stated, fails: `extended_gcd(-4, 0)` returns `(-4, 1, 0)`, whose first
component is negative, while the greatest common divisor of -4 and 0 is 4. -/
theorem extended_gcd_fst_negative :
    extended_gcd (-4) 0 = some (-4, 1, 0) ∧ (-4 : Int) ≠ ((Int.gcd (-4) 0 : Nat) : Int) := by
  decide

/-- C3, amended: for all integers `a >= 0` and `b >= 0` the first component of
`extended_gcd(a, b)` equals the standard non-negative greatest common divisor. -/
theorem extended_gcd_fst_eq_gcd (a b : Int) (ha : 0 ≤ a) (hb : 0 ≤ b) :
    ∃ x y, extended_gcd a b = some (((Int.gcd a b : Nat) : Int), x, y) := by
  obtain ⟨g, x, y, hres, -, hg, hsign⟩ :=
    extended_gcd_loop_spec a b b.natAbs a b 1 0 0 1 le_rfl (by ring) (by ring)
  refine ⟨x, y, ?_⟩
  rw [← hg, Int.natAbs_of_nonneg (hsign ha hb)]
  exact hres

theorem extended_gcd_fst_eq_gcd_witness :
    ∃ x y, extended_gcd 240 46 = some (((Int.gcd 240 46 : Nat) : Int), x, y) :=
  extended_gcd_fst_eq_gcd 240 46 (by decide) (by decide)

/-! ## Residues as elements of `ZMod p` -/

/-- C10: whatever the number of rounds and the witnesses drawn, `fermat_test(n)`
is false for every `n <= 1` and every even `n > 2`, and true for `n = 2` and
`n = 3`. -/
theorem fermat_test_small_and_even (n k : Int) (draw : Nat → Int) :
    (n ≤ 1 → fermat_test n k draw = false) ∧
      (2 < n → Even n → fermat_test n k draw = false) ∧
      (n = 2 ∨ n = 3 → fermat_test n k draw = true) := by
  refine ⟨?_, ?_, ?_⟩
  · intro h
    simp [fermat_test, h]
  · intro h he
    have h2 : n % 2 = 0 := Int.even_iff.mp he
    unfold fermat_test
    rw [if_neg (by omega), if_neg (by omega),
      if_pos (by rw [Int.tmod_eq_emod (by omega) (by norm_num)]; exact h2)]
  · intro h
    unfold fermat_test
    rw [if_neg (by omega), if_pos h]

theorem fermat_test_small_and_even_witness :
    fermat_test (-5) 3 (fun _ => 2) = false ∧ fermat_test 10 3 (fun _ => 3) = false ∧
      fermat_test 2 3 (fun _ => 2) = true ∧ fermat_test 3 0 (fun _ => 2) = true :=
  ⟨(fermat_test_small_and_even (-5) 3 (fun _ => 2)).1 (by decide),
    (fermat_test_small_and_even 10 3 (fun _ => 3)).2.1 (by decide) (by decide),
    (fermat_test_small_and_even 2 3 (fun _ => 2)).2.2 (by decide),
    (fermat_test_small_and_even 3 0 (fun _ => 2)).2.2 (by decide)⟩

/-! ## Primitive-root test -/

/-- A pair returned by the search loop was accepted in some iteration `t'`: there
both Fermat tests answered true and `p = 2q + 1 <= max_v`. -/
theorem find_safe_prime_loop_some (max_v k : Int) (cand : Nat → Int) (wq wp : Nat → Nat → Int)
    (p q : Int) (fuel : Nat) :
    ∀ t : Nat, find_safe_prime_loop max_v k cand wq wp fuel t = some (p, q) →
      p = 2 * q + 1 ∧ p ≤ max_v ∧
        ∃ t', t ≤ t' ∧ t' < t + fuel ∧ q = cand t' ∧
          fermat_test q k (wq t') = true ∧ fermat_test p k (wp t') = true := by
  induction fuel with
  | zero => intro t h; simp [find_safe_prime_loop] at h
  | succ fuel ih =>
    intro t h
    unfold find_safe_prime_loop at h
    have hnext : find_safe_prime_loop max_v k cand wq wp fuel (t + 1) = some (p, q) →
        p = 2 * q + 1 ∧ p ≤ max_v ∧
          ∃ t', t ≤ t' ∧ t' < t + (fuel + 1) ∧ q = cand t' ∧
            fermat_test q k (wq t') = true ∧ fermat_test p k (wp t') = true := by
      intro h'
      obtain ⟨h1, h2, t', h3, h4, h5⟩ := ih (t + 1) h'
      exact ⟨h1, h2, t', by omega, by omega, h5⟩
    by_cases hq : fermat_test (cand t) k (wq t) = true
    · rw [if_pos hq] at h
      by_cases hp : 2 * cand t + 1 ≤ max_v ∧ fermat_test (2 * cand t + 1) k (wp t) = true
      · rw [if_pos hp] at h
        have hpair : (2 * cand t + 1, cand t) = (p, q) := Option.some.inj h
        have hq' : cand t = q := (Prod.mk.inj hpair).2
        have hp' : 2 * cand t + 1 = p := (Prod.mk.inj hpair).1
        refine ⟨by rw [← hp', hq'], by rw [← hp']; exact hp.1, t, le_rfl, by omega, hq'.symm, ?_, ?_⟩
        · rw [← hq']; exact hq
        · rw [← hp']; exact hp.2
      · rw [if_neg hp] at h; exact hnext h
    · rw [if_neg hq] at h; exact hnext h

/-- C11: whatever candidates and witnesses are drawn, every pair `(p, q)` returned
by `generate_safe_prime(min, max, k)` satisfies `p == 2*q + 1` and `p <= max`, and
`fermat_test` with `k` rounds returned true on both `q` and `p` in the accepting
iteration. -/
theorem generate_safe_prime_accepts (min_val max_val k : Int) (fuel : Nat)
    (dis_q : Int → Int → Nat → Int) (wq wp : Nat → Nat → Int) (p q : Int)
    (h : generate_safe_prime min_val max_val k fuel dis_q wq wp = some (p, q)) :
    p = 2 * q + 1 ∧ p ≤ max_val ∧
      ∃ t, t < fuel ∧
        q = dis_q (safe_prime_min_q min_val max_val) (safe_prime_max_q max_val) t ∧
        fermat_test q k (wq t) = true ∧ fermat_test p k (wp t) = true := by
  obtain ⟨h1, h2, t, -, h4, h5⟩ :=
    find_safe_prime_loop_some max_val k _ wq wp p q fuel 0 h
  exact ⟨h1, h2, t, by omega, h5⟩

theorem generate_safe_prime_accepts_witness :
    (107 : Int) = 2 * 53 + 1 ∧ (107 : Int) ≤ 200 ∧
      ∃ t : Nat, t < 5 ∧ (53 : Int) = safe_prime_min_q 100 200 + 1 + (t : Int) ∧
        fermat_test 53 10 (fun i : Nat => 2 + (i : Int)) = true ∧
        fermat_test 107 10 (fun i : Nat => 2 + (i : Int)) = true :=
  generate_safe_prime_accepts 100 200 10 5 (fun lo _ t => lo + 1 + (t : Int))
    (fun _ i => 2 + (i : Int)) (fun _ i => 2 + (i : Int)) 107 53 (by decide)

/-- What the bounds of `dis_q` guarantee: a returned `p` lies in
`[min_val - 1, max_val]` when the candidate respects the lower bound of the
distribution. -/
theorem generate_safe_prime_range (min_val max_val k : Int) (fuel : Nat)
    (dis_q : Int → Int → Nat → Int) (wq wp : Nat → Nat → Int) (p q : Int)
    (hmin : 5 ≤ min_val) (hmm : min_val ≤ max_val)
    (hdis : ∀ t, safe_prime_min_q min_val max_val ≤
      dis_q (safe_prime_min_q min_val max_val) (safe_prime_max_q max_val) t)
    (h : generate_safe_prime min_val max_val k fuel dis_q wq wp = some (p, q)) :
    min_val - 1 ≤ p ∧ p ≤ max_val := by
  obtain ⟨h1, h2, t, -, -, h4, -⟩ :=
    find_safe_prime_loop_some max_val k _ wq wp p q fuel 0 h
  refine ⟨?_, h2⟩
  have hq := hdis t
  rw [← h4] at hq
  have e1 : Int.tdiv (min_val - 1) 2 = (min_val - 1) / 2 :=
    Int.tdiv_eq_ediv (by omega) (by norm_num)
  have e2 : Int.tdiv (max_val - 1) 2 = (max_val - 1) / 2 :=
    Int.tdiv_eq_ediv (by omega) (by norm_num)
  unfold safe_prime_min_q at hq
  rw [e1, e2] at hq
  have hle : max 2 ((min_val - 1) / 2) ≤ (max_val - 1) / 2 := by
    rw [max_le_iff]; constructor <;> omega
  rw [if_neg (by omega)] at hq
  have := le_max_right 2 ((min_val - 1) / 2)
  omega

/-- C19, evaluated: with `min = 6` and `max = 10` the distribution ranges over
`[2, 4]`; the candidate `q = 2` passes, `p = 5` passes with the witnesses 2 and
3, and the pair `(5, 2)` is returned although `5 < 6`. With the arguments of the
call in `main`, the candidate 49 and Fermat liars as witnesses give `(99, 49)`. -/
theorem generate_safe_prime_below_min :
    safe_prime_min_q 6 10 = 2 ∧ safe_prime_max_q 10 = 4 ∧
      generate_safe_prime 6 10 10 1 (fun lo _ _ => lo) (fun _ _ => 2)
        (fun _ i => 2 + ((i % 2 : Nat) : Int)) = some (5, 2) ∧
      generate_safe_prime 100 3628800 10 1 (fun lo _ _ => lo) (fun _ _ => 18)
        (fun _ _ => 10) = some (99, 49) := by
  decide

/-! ## Degenerate inputs of the discrete-log solver -/

/-- C12, evaluated: 8 mod 7 is 1, yet `baby_step_giant_step(3, 8, 7)` returns 6
and `baby_step_giant_step(0, 8, 7)` returns -1, although the exponent 0 passes
the acceptance test `mod_pow(a, 0, 7) == 8 % 7` of line 102 for both bases. -/
theorem baby_step_giant_step_unreduced_one :
    (8 : Int) % 7 = 1 ∧ baby_step_giant_step 3 8 7 = 6 ∧ baby_step_giant_step 0 8 7 = -1 ∧
      mod_pow 3 0 7 = Int.tmod 8 7 ∧ mod_pow 0 0 7 = Int.tmod 8 7 := by
  decide

/-- C13, as stated, fails: 0 mod 7 is not 1 and `baby_step_giant_step(0, 0, 7)`
returns 1, not 0. -/
theorem baby_step_giant_step_zero_zero :
    (0 : Int) % 7 ≠ 1 ∧ baby_step_giant_step 0 0 7 = 1 ∧ baby_step_giant_step 0 0 7 ≠ 0 := by
  decide

/-- C13, amended: for every p >= 2 and every `y` with `y mod p != 1`,
`baby_step_giant_step(0, y, p)` returns 1 if `y == 0`, and reports failure (-1)
if `y mod p != 0`. -/
theorem baby_step_giant_step_zero_base (y p : Int) (hp : 2 ≤ p) (hy : y % p ≠ 1) :
    (y = 0 → baby_step_giant_step 0 y p = 1) ∧
      (y % p ≠ 0 → baby_step_giant_step 0 y p = -1) := by
  have hy1 : y ≠ 1 := by
    intro h
    apply hy
    rw [h]
    exact Int.emod_eq_of_lt (by norm_num) (by omega)
  constructor
  · intro h0
    unfold baby_step_giant_step
    rw [if_neg hy1, if_pos rfl, if_pos h0]
  · intro hne
    have hy0 : y ≠ 0 := by
      intro h
      apply hne
      rw [h]; simp
    unfold baby_step_giant_step
    rw [if_neg hy1, if_pos rfl, if_neg hy0]

theorem baby_step_giant_step_zero_base_witness :
    baby_step_giant_step 0 0 7 = 1 ∧ baby_step_giant_step 0 3 7 = -1 :=
  ⟨(baby_step_giant_step_zero_base 0 7 (by decide) (by decide)).1 rfl,
    (baby_step_giant_step_zero_base 3 7 (by decide) (by decide)).2 (by decide)⟩

/-! ## Negative base -/

/-- C14, evaluated: `mod_pow(-2, 1, 5)` returns -2, which is outside `[0, 5)`: the
truncating `%` of line 27 leaves a negative base negative. -/
theorem mod_pow_negative_base :
    Int.tmod (-2) 5 = -2 ∧ mod_pow (-2) 1 5 = -2 ∧ ¬ (0 ≤ mod_pow (-2) 1 5) := by
  decide

/-! ## Fermat test: false positives and zero rounds -/

/-- C16: the composite 561 = 3 * 11 * 17 passes `fermat_test` with 5 rounds whose
witnesses 2, 4, 8, 16, 32 all lie in `[2, 559]`. -/
theorem fermat_test_false_positive :
    ∃ (n : Nat) (k : Int) (draw : Nat → Int), n = 3 * 11 * 17 ∧ ¬ n.Prime ∧ 1 ≤ k ∧
      (∀ i : Nat, (i : Int) < k → 2 ≤ draw i ∧ draw i ≤ (n : Int) - 2) ∧
      fermat_test n k draw = true := by
  refine ⟨561, 5, fun i => 2 ^ (i + 1), by norm_num, by norm_num, by norm_num, ?_, by decide⟩
  intro i hi
  have hi5 : i < 5 := by omega
  interval_cases i <;> norm_num

/-- C20: for every odd n > 3 and every k <= 0, `fermat_test(n, k)` runs no round
and returns true whatever the witness stream; so does `fermat_test(9, 0)`. -/
theorem fermat_test_no_rounds (n k : Int) (draw : Nat → Int) (hn : 3 < n) (hodd : n % 2 = 1)
    (hk : k ≤ 0) :
    k.toNat = 0 ∧ fermat_test n k draw = true ∧ fermat_test 9 0 draw = true := by
  have hk0 : k.toNat = 0 := by omega
  have hgen : ∀ n' k' : Int, 3 < n' → n' % 2 = 1 → k'.toNat = 0 →
      fermat_test n' k' draw = true := by
    intro n' k' h3 ho hz
    unfold fermat_test
    rw [if_neg (by omega), if_neg (by omega),
      if_neg (by rw [Int.tmod_eq_emod (by omega) (by norm_num)]; omega), hz]
    rfl
  exact ⟨hk0, hgen n k hn hodd hk0, hgen 9 0 (by norm_num) (by norm_num) rfl⟩

theorem fermat_test_no_rounds_witness :
    (-3 : Int).toNat = 0 ∧ fermat_test 9 (-3) (fun _ => 3) = true ∧
      fermat_test 9 0 (fun _ => 3) = true :=
  fermat_test_no_rounds 9 (-3) (fun _ => 3) (by decide) (by decide) (by decide)

/-! ## Extended Euclid up to sign -/

theorem abs_tmod_lt (x m : Int) (hm : 0 < m) : |Int.tmod x m| < m := by
  rw [Int.abs_eq_natAbs, natAbs_tmod]
  have h1 : x.natAbs % m.natAbs < m.natAbs := Nat.mod_lt _ (Int.natAbs_pos.mpr hm.ne')
  have h2 : (m.natAbs : Int) = m := Int.natAbs_of_nonneg hm.le
  omega

theorem wrap64_eq_self (x : Int) (h : |x| < 2 ^ 63) : wrap64 x = x := by
  have h' := abs_lt.mp h
  unfold wrap64
  rw [Int.emod_eq_of_lt (by omega) (by norm_num at h' ⊢; omega)]
  ring

/-- The product of two residues of a modulus of at most 3,628,800 is below 2^63
in absolute value. -/
theorem abs_mul_lt_two_pow (u v m : Int) (hm : m ≤ 3628800) (hu : |u| < m) (hv : |v| < m) :
    |u * v| < 2 ^ 63 := by
  rw [abs_mul]
  have h1 : |u| * |v| < m * m := mul_lt_mul'' hu hv (abs_nonneg u) (abs_nonneg v)
  have hm0 : 0 ≤ m := le_trans (abs_nonneg u) hu.le
  have h2 : m * m ≤ 3628800 * 3628800 := mul_le_mul hm hm hm0 (by norm_num)
  have h3 : (3628800 : Int) * 3628800 < 2 ^ 63 := by norm_num
  omega

/-- With loop variables below the modulus in absolute value, every product of
the loop is below 2^63 and the wrapped loop agrees with the unbounded one. -/
theorem mod_pow64_loop_eq (mod : Int) (hm0 : 0 < mod) (hm : mod ≤ 3628800) (fuel : Nat) :
    ∀ result base exp : Int, |result| < mod → |base| < mod →
      (∀ x ∈ mod_pow_products_loop fuel result base exp mod, |x| < 2 ^ 63) ∧
        mod_pow64_loop fuel result base exp mod = mod_pow_loop fuel result base exp mod := by
  induction fuel with
  | zero =>
    intro result base exp _ _
    exact ⟨by simp [mod_pow_products_loop], rfl⟩
  | succ fuel ih =>
    intro result base exp hr hb
    have hrb := abs_mul_lt_two_pow result base mod hm hr hb
    have hbb := abs_mul_lt_two_pow base base mod hm hb hb
    have hnext := ih
      (if Int.tmod exp 2 = 1 then Int.tmod (result * base) mod else result)
      (Int.tmod (base * base) mod) (exp >>> (1 : Nat))
      (by split_ifs
          · exact abs_tmod_lt _ _ hm0
          · exact hr)
      (abs_tmod_lt _ _ hm0)
    unfold mod_pow_products_loop mod_pow64_loop mod_pow_loop
    by_cases hpos : exp > 0
    · rw [if_pos hpos, if_pos hpos, if_pos hpos, wrap64_eq_self _ hrb, wrap64_eq_self _ hbb]
      refine ⟨?_, hnext.2⟩
      intro x hx
      rw [List.mem_append, List.mem_cons] at hx
      rcases hx with hx | hx | hx
      · split_ifs at hx
        · rw [List.mem_singleton] at hx; rw [hx]; exact hrb
        · simp at hx
      · rw [hx]; exact hbb
      · exact hnext.1 x hx
    · rw [if_neg hpos, if_neg hpos, if_neg hpos]
      exact ⟨by simp, rfl⟩

/-- C15: for every modulus with 1 <= mod <= 3,628,800, every base (every 64-bit
signed one in particular) and every exponent, each product `result * base` and
`base * base` evaluated by `mod_pow` is below 2^63 in absolute value, and the
64-bit wrap-around computation returns the value of the computation over
unbounded integers. -/
theorem mod_pow64_eq_mod_pow (base exp mod : Int) (hm1 : 1 ≤ mod) (hm : mod ≤ 3628800) :
    (∀ x ∈ mod_pow_products base exp mod, |x| < 2 ^ 63) ∧
      mod_pow64 base exp mod = mod_pow base exp mod := by
  unfold mod_pow_products mod_pow64 mod_pow
  by_cases h1 : mod = 1
  · rw [if_pos h1, if_pos h1, if_pos h1]
    exact ⟨by simp, rfl⟩
  · rw [if_neg h1, if_neg h1, if_neg h1]
    exact mod_pow64_loop_eq mod (by omega) hm exp.toNat 1 (Int.tmod base mod) exp
      (by rw [abs_one]; omega) (abs_tmod_lt _ _ (by omega))

theorem mod_pow64_eq_mod_pow_witness :
    (∀ x ∈ mod_pow_products (-9223372036854775808) 1000 3628800, |x| < 2 ^ 63) ∧
      mod_pow64 (-9223372036854775808) 1000 3628800 =
        mod_pow (-9223372036854775808) 1000 3628800 :=
  mod_pow64_eq_mod_pow (-9223372036854775808) 1000 3628800 (by decide) (by decide)

/-- Beyond the documented scale the wrapped computation does leave the unbounded
one: with the modulus 2^63 - 1 the square of 2^32 wraps to 0. -/
theorem mod_pow64_wraps :
    mod_pow64 4294967296 2 9223372036854775807 = 0 ∧
      mod_pow 4294967296 2 9223372036854775807 = 2 := by
  decide

/-! ## Step-size selection -/

end Lab3
